import Mathlib

/-!
Verification of the deployment/preview pipeline of the company-website-generator
repository: deterministic naming (`generateHash`), signed download URLs, the
preview proxy's key resolution and content typing, history persistence, bulk
upload accounting, directory enumeration and teardown.

Node library primitives used by the source (`crypto` MD5 / HMAC-SHA1, base64,
UTF-8 encoding of JS strings) are embedded as executable Lean functions over
`Nat` byte lists; machine words are `Nat` with explicit reduction `% 2^32`.
-/

namespace CWG

/-! ### Byte and word helpers -/

/-- Left-rotation of a 32-bit word represented as a `Nat < 2^32`. -/
def rotl32 (x n : Nat) : Nat := ((x <<< n) ||| (x >>> (32 - n))) % 2^32

/-- Bitwise complement on 32 bits. -/
def not32 (x : Nat) : Nat := x ^^^ 0xFFFFFFFF

/-- The four bytes of a 32-bit word, little-endian (MD5 convention). -/
def bytesLE4 (w : Nat) : List Nat :=
  [w % 256, (w >>> 8) % 256, (w >>> 16) % 256, (w >>> 24) % 256]

/-- The eight bytes of a 64-bit word, little-endian (MD5 length field). -/
def bytesLE8 (w : Nat) : List Nat :=
  [w % 256, (w >>> 8) % 256, (w >>> 16) % 256, (w >>> 24) % 256,
   (w >>> 32) % 256, (w >>> 40) % 256, (w >>> 48) % 256, (w >>> 56) % 256]

/-- A 32-bit word from four little-endian bytes. -/
def wordLE (bs : List Nat) : Nat :=
  match bs with
  | [b0, b1, b2, b3] => b0 + (b1 <<< 8) + (b2 <<< 16) + (b3 <<< 24)
  | _ => 0

/-- UTF-8 encoding of one character, as Node's `Buffer.from(str, 'utf8')`
produces for each code point. -/
def utf8Char (c : Char) : List Nat :=
  let n := c.toNat
  if n < 0x80 then [n]
  else if n < 0x800 then
    [0xC0 ||| (n >>> 6), 0x80 ||| (n &&& 0x3F)]
  else if n < 0x10000 then
    [0xE0 ||| (n >>> 12), 0x80 ||| ((n >>> 6) &&& 0x3F), 0x80 ||| (n &&& 0x3F)]
  else
    [0xF0 ||| (n >>> 18), 0x80 ||| ((n >>> 12) &&& 0x3F),
     0x80 ||| ((n >>> 6) &&& 0x3F), 0x80 ||| (n &&& 0x3F)]

/-- UTF-8 byte sequence of a string. -/
def utf8 (s : String) : List Nat := (s.data.map utf8Char).flatten

/-- Lowercase hex digit for a value `< 16`. -/
def hexChar (n : Nat) : Char :=
  if n = 0 then '0' else if n = 1 then '1' else if n = 2 then '2'
  else if n = 3 then '3' else if n = 4 then '4' else if n = 5 then '5'
  else if n = 6 then '6' else if n = 7 then '7' else if n = 8 then '8'
  else if n = 9 then '9' else if n = 10 then 'a' else if n = 11 then 'b'
  else if n = 12 then 'c' else if n = 13 then 'd' else if n = 14 then 'e'
  else 'f'

/-- Two lowercase hex digits of a byte. -/
def byteHex (b : Nat) : List Char := [hexChar ((b >>> 4) % 16), hexChar (b % 16)]

/-! ### MD5 (RFC 1321), as used by Node `crypto.createHash('md5')` -/

/-- MD5 per-round left-rotation amounts. -/
def md5S : List Nat :=
  [7, 12, 17, 22, 7, 12, 17, 22, 7, 12, 17, 22, 7, 12, 17, 22,
   5, 9, 14, 20, 5, 9, 14, 20, 5, 9, 14, 20, 5, 9, 14, 20,
   4, 11, 16, 23, 4, 11, 16, 23, 4, 11, 16, 23, 4, 11, 16, 23,
   6, 10, 15, 21, 6, 10, 15, 21, 6, 10, 15, 21, 6, 10, 15, 21]

/-- MD5 round constants `⌊|sin(i+1)|·2^32⌋`. -/
def md5K : List Nat :=
  [0xd76aa478, 0xe8c7b756, 0x242070db, 0xc1bdceee, 0xf57c0faf, 0x4787c62a, 0xa8304613, 0xfd469501,
   0x698098d8, 0x8b44f7af, 0xffff5bb1, 0x895cd7be, 0x6b901122, 0xfd987193, 0xa679438e, 0x49b40821,
   0xf61e2562, 0xc040b340, 0x265e5a51, 0xe9b6c7aa, 0xd62f105d, 0x02441453, 0xd8a1e681, 0xe7d3fbc8,
   0x21e1cde6, 0xc33707d6, 0xf4d50d87, 0x455a14ed, 0xa9e3e905, 0xfcefa3f8, 0x676f02d9, 0x8d2a4c8a,
   0xfffa3942, 0x8771f681, 0x6d9d6122, 0xfde5380c, 0xa4beea44, 0x4bdecfa9, 0xf6bb4b60, 0xbebfbc70,
   0x289b7ec6, 0xeaa127fa, 0xd4ef3085, 0x04881d05, 0xd9d4d039, 0xe6db99e5, 0x1fa27cf8, 0xc4ac5665,
   0xf4292244, 0x432aff97, 0xab9423a7, 0xfc93a039, 0x655b59c3, 0x8f0ccc92, 0xffeff47d, 0x85845dd1,
   0x6fa87e4f, 0xfe2ce6e0, 0xa3014314, 0x4e0811a1, 0xf7537e82, 0xbd3af235, 0x2ad7d2bb, 0xeb86d391]

/-- MD5 padding: append `0x80`, zero bytes to 56 mod 64, then the bit length
as a 64-bit little-endian quantity. -/
def md5Pad (msg : List Nat) : List Nat :=
  let len := msg.length
  let zeros := (120 - (len + 1) % 64) % 64
  msg ++ [0x80] ++ List.replicate zeros 0 ++ bytesLE8 ((len * 8) % 2^64)

/-- One MD5 round applied to the state `(a, b, c, d)`. -/
def md5Step (M : Nat → Nat) (st : Nat × Nat × Nat × Nat) (i : Nat) :
    Nat × Nat × Nat × Nat :=
  let (a, b, c, d) := st
  let f :=
    if i < 16 then (b &&& c) ||| (not32 b &&& d)
    else if i < 32 then (d &&& b) ||| (not32 d &&& c)
    else if i < 48 then b ^^^ c ^^^ d
    else c ^^^ (b ||| not32 d)
  let g :=
    if i < 16 then i
    else if i < 32 then (5 * i + 1) % 16
    else if i < 48 then (3 * i + 5) % 16
    else (7 * i) % 16
  let rotated := rotl32 ((a + f + md5K.getD i 0 + M g) % 2^32) (md5S.getD i 0)
  (d, (b + rotated) % 2^32, b, c)

/-- Process one 64-byte block. -/
def md5Block (st0 : Nat × Nat × Nat × Nat) (block : List Nat) :
    Nat × Nat × Nat × Nat :=
  let M : Nat → Nat := fun j => wordLE ((block.drop (4 * j)).take 4)
  let (a, b, c, d) := (List.range 64).foldl (md5Step M) st0
  let (a0, b0, c0, d0) := st0
  ((a0 + a) % 2^32, (b0 + b) % 2^32, (c0 + c) % 2^32, (d0 + d) % 2^32)

/-- The 16 digest bytes of the MD5 of a byte sequence. -/
def md5Bytes (msg : List Nat) : List Nat :=
  let padded := md5Pad msg
  let blocks := (List.range (padded.length / 64)).map
    (fun i => (padded.drop (64 * i)).take 64)
  let st := blocks.foldl md5Block (0x67452301, 0xefcdab89, 0x98badcfe, 0x10325476)
  bytesLE4 st.1 ++ bytesLE4 st.2.1 ++ bytesLE4 st.2.2.1 ++ bytesLE4 st.2.2.2

/-- Lowercase hex digest of the MD5 of a string, as
`crypto.createHash('md5').update(s).digest('hex')`. -/
def md5Hex (s : String) : String :=
  String.mk (((md5Bytes (utf8 s)).map byteHex).flatten)

/-! ### SHA-1 (FIPS 180-1) and HMAC-SHA1, as used by
`crypto.createHmac('sha1', key)` -/

/-- The four bytes of a 32-bit word, big-endian (SHA-1 convention). -/
def bytesBE4 (w : Nat) : List Nat :=
  [(w >>> 24) % 256, (w >>> 16) % 256, (w >>> 8) % 256, w % 256]

/-- The eight bytes of a 64-bit word, big-endian (SHA-1 length field). -/
def bytesBE8 (w : Nat) : List Nat :=
  [(w >>> 56) % 256, (w >>> 48) % 256, (w >>> 40) % 256, (w >>> 32) % 256,
   (w >>> 24) % 256, (w >>> 16) % 256, (w >>> 8) % 256, w % 256]

/-- A 32-bit word from four big-endian bytes. -/
def wordBE (bs : List Nat) : Nat :=
  match bs with
  | [b0, b1, b2, b3] => (b0 <<< 24) + (b1 <<< 16) + (b2 <<< 8) + b3
  | _ => 0

/-- SHA-1 padding: append `0x80`, zero bytes to 56 mod 64, then the bit
length as a 64-bit big-endian quantity. -/
def sha1Pad (msg : List Nat) : List Nat :=
  let len := msg.length
  let zeros := (120 - (len + 1) % 64) % 64
  msg ++ [0x80] ++ List.replicate zeros 0 ++ bytesBE8 ((len * 8) % 2^64)

/-- The 80-entry SHA-1 message schedule of one block. -/
def sha1Schedule (block : List Nat) : List Nat :=
  let w16 := (List.range 16).map (fun j => wordBE ((block.drop (4 * j)).take 4))
  (List.range 64).foldl
    (fun w _ =>
      let i := w.length
      w ++ [rotl32 (((w.getD (i - 3) 0) ^^^ (w.getD (i - 8) 0) ^^^
        (w.getD (i - 14) 0) ^^^ (w.getD (i - 16) 0)) % 2^32) 1])
    w16

/-- One SHA-1 round applied to the state `(a, b, c, d, e)`. -/
def sha1Step (w : List Nat) (st : Nat × Nat × Nat × Nat × Nat) (i : Nat) :
    Nat × Nat × Nat × Nat × Nat :=
  let (a, b, c, d, e) := st
  let f :=
    if i < 20 then (b &&& c) ||| (not32 b &&& d)
    else if i < 40 then b ^^^ c ^^^ d
    else if i < 60 then (b &&& c) ||| (b &&& d) ||| (c &&& d)
    else b ^^^ c ^^^ d
  let k :=
    if i < 20 then 0x5A827999
    else if i < 40 then 0x6ED9EBA1
    else if i < 60 then 0x8F1BBCDC
    else 0xCA62C1D6
  let temp := (rotl32 a 5 + f + e + k + w.getD i 0) % 2^32
  (temp, a, rotl32 b 30, c, d)

/-- Process one 64-byte SHA-1 block. -/
def sha1Block (st0 : Nat × Nat × Nat × Nat × Nat) (block : List Nat) :
    Nat × Nat × Nat × Nat × Nat :=
  let w := sha1Schedule block
  let (a, b, c, d, e) := (List.range 80).foldl (sha1Step w) st0
  let (a0, b0, c0, d0, e0) := st0
  ((a0 + a) % 2^32, (b0 + b) % 2^32, (c0 + c) % 2^32, (d0 + d) % 2^32,
   (e0 + e) % 2^32)

/-- The 20 digest bytes of the SHA-1 of a byte sequence. -/
def sha1Bytes (msg : List Nat) : List Nat :=
  let padded := sha1Pad msg
  let blocks := (List.range (padded.length / 64)).map
    (fun i => (padded.drop (64 * i)).take 64)
  let (a, b, c, d, e) := blocks.foldl sha1Block
    (0x67452301, 0xEFCDAB89, 0x98BADCFE, 0x10325476, 0xC3D2E1F0)
  bytesBE4 a ++ bytesBE4 b ++ bytesBE4 c ++ bytesBE4 d ++ bytesBE4 e

/-- HMAC-SHA1 (FIPS 198-1) over byte sequences. -/
def hmacSha1 (key msg : List Nat) : List Nat :=
  let k0 := if key.length > 64 then sha1Bytes key else key
  let kPad := k0 ++ List.replicate (64 - k0.length) 0
  let inner := sha1Bytes ((kPad.map (· ^^^ 0x36)) ++ msg)
  sha1Bytes ((kPad.map (· ^^^ 0x5c)) ++ inner)

/-! ### Base64, as Node's `digest('base64')` -/

/-- The standard base64 alphabet. -/
def base64Alphabet : List Char :=
  "ABCDEFGHIJKLMNOPQRSTUVWXYZabcdefghijklmnopqrstuvwxyz0123456789+/".data

/-- Alphabet character of a 6-bit value. -/
def b64Char (n : Nat) : Char := base64Alphabet.getD n '?'

/-- Standard base64 encoding (with `=` padding) of a byte sequence. -/
def base64 : List Nat → List Char
  | [] => []
  | [b0] =>
    [b64Char (b0 >>> 2), b64Char ((b0 &&& 3) <<< 4), '=', '=']
  | [b0, b1] =>
    [b64Char (b0 >>> 2), b64Char (((b0 &&& 3) <<< 4) ||| (b1 >>> 4)),
     b64Char ((b1 &&& 15) <<< 2), '=']
  | b0 :: b1 :: b2 :: rest =>
    [b64Char (b0 >>> 2), b64Char (((b0 &&& 3) <<< 4) ||| (b1 >>> 4)),
     b64Char (((b1 &&& 15) <<< 2) ||| (b2 >>> 6)), b64Char (b2 &&& 63)] ++
    base64 rest

/-- `crypto.createHmac('sha1', key).update(msg).digest('base64')` for string
key and message. -/
def hmacSha1Base64 (key msg : String) : String :=
  String.mk (base64 (hmacSha1 (utf8 key) (utf8 msg)))

/-! ### String helpers mirroring the JS string operations used by the source -/

/-- First `n` characters of a string (JS `substring(0, n)` on ASCII data). -/
def takeChars (s : String) (n : Nat) : String := String.mk (s.data.take n)

/-- Drop the first `n` characters of a string. -/
def dropChars (s : String) (n : Nat) : String := String.mk (s.data.drop n)

/-- Whether the last character of `s` is `c` (JS `endsWith` for a
one-character suffix). -/
def lastIs (s : String) (c : Char) : Bool := s.data.getLast? == some c

/-- Whether `s` contains the character `c` (JS `includes` for a one-character
needle). -/
def containsChar (s : String) (c : Char) : Bool := s.data.contains c

/-- JS `str.replace(/x/g, y)` for one-character pattern and replacement:
replace every occurrence of `c` by `r`. -/
def jsReplaceAllChar (c r : Char) (s : String) : String :=
  String.mk (s.data.map (fun x => if x = c then r else x))

/-- JS `str.replace(/=+$/, '')`: strip every trailing `=`. -/
def stripTrailingEquals (s : String) : String :=
  String.mk ((s.data.reverse.dropWhile (· = '=')).reverse)

/-- JS `str.replace(pat, rep)` for a plain-string pattern: replace the first
occurrence of `pat` (if any) by `rep`. -/
def replaceFirstL (s pat rep : List Char) : List Char :=
  match s with
  | [] => if List.isPrefixOf pat [] then rep else []
  | c :: rest =>
    if List.isPrefixOf pat (c :: rest) then rep ++ (c :: rest).drop pat.length
    else c :: replaceFirstL rest pat rep

/-- String wrapper of `replaceFirstL`. -/
def replaceFirst (s pat rep : String) : String :=
  String.mk (replaceFirstL s.data pat.data rep.data)

/-- Whether `s` starts with `p` (JS `startsWith`). -/
def startsWithStr (s p : String) : Bool := List.isPrefixOf p.data s.data

/-- ASCII lowercase of one character (JS `toLowerCase` on the ASCII
extensions the proxy inspects). -/
def toLowerAscii (c : Char) : Char :=
  if 'A' ≤ c ∧ c ≤ 'Z' then Char.ofNat (c.toNat + 32) else c

/-! ### Naming Resolver — src/unnamed/part_004, `generateHash` (lines 12–18)
and the directory name it induces (lines 49–50)

The source reads the salt from `process.env.HASH_SECRET || 'default-secret'`;
ambient configuration is passed as an explicit `secret` argument here. -/

/-- `generateHash`: 8-character deterministic token, the truncated MD5 hex
digest of `` `${companyName}-${secret}` ``. -/
def generateHash (secret companyName : String) : String :=
  takeChars (md5Hex (companyName ++ "-" ++ secret)) 8

/-- `deployToQiniu` line 50: `` dirName = `${companyInfo.name}-${hashCode}` ``. -/
def dirNameOf (secret companyName : String) : String :=
  companyName ++ "-" ++ generateHash secret companyName

/-! ### Qiniu configuration — `getQiniuConfig` in part_004 / qiniu.js

Environment values are modelled as plain strings where the empty string
stands for an unset variable; every use in the source is either a JS
truthiness test (on which `''` and `undefined` agree) or an interpolation. -/

structure QiniuConfig where
  accessKey : String
  secretKey : String
  bucket : String
  /-- already defaulted: `process.env.QINIU_ZONE || 'z0'` -/
  zone : String
  /-- optional custom display domain; `""` when not configured -/
  domain : String
deriving DecidableEq, Repr

/-- The canonical storage domain `` `${config.bucket}.${config.zone}.qiniucs.com` ``
(part_004 line 111, app.js line 66, part_005 line 48). -/
def defaultDomain (cfg : QiniuConfig) : String :=
  cfg.bucket ++ "." ++ cfg.zone ++ ".qiniucs.com"

/-! ### URL Signer — the qiniu SDK's `BucketManager.privateDownloadUrl`

Modelled from the SDK the source calls (not itself part of the repository):
the private download URL appends `?e=<deadline>` to the public download URL,
computes HMAC-SHA1 of that whole string with the secret key, url-safe-encodes
the base64 digest (`+`→`-`, `/`→`_`, padding kept), and appends
`&token=<accessKey>:<signature>`. Keys are assumed URI-safe, so `encodeURI`
is the identity on them. -/

/-- The qiniu SDK's url-safe base64 transformation (keeps `=` padding). -/
def qiniuUrlSafe (s : String) : String :=
  jsReplaceAllChar '+' '-' (jsReplaceAllChar '/' '_' s)

/-- The exact string the SDK signs for a download URL `url`: `url?e=<deadline>`. -/
def privateDownloadSignBase (url : String) (deadline : Nat) : String :=
  url ++ "?e=" ++ toString deadline

/-- SDK `privateDownloadUrl` on a full URL (part_004's call shape:
`privateDownloadUrl(originUrl, deadline)`). -/
def privateDownloadUrlFull (secretKey accessKey url : String) (deadline : Nat) :
    String :=
  let baseUrl := privateDownloadSignBase url deadline
  baseUrl ++ "&token=" ++ accessKey ++ ":" ++
    qiniuUrlSafe (hmacSha1Base64 secretKey baseUrl)

/-! ### Deploy-time URLs — part_004 `deployToQiniu`, lines 109–133 -/

/-- Lines 112–114: the unsigned base URL (custom domain when configured). -/
def deployBaseUrl (cfg : QiniuConfig) (dirName : String) : String :=
  if cfg.domain ≠ "" then "https://" ++ cfg.domain ++ "/" ++ dirName
  else "https://" ++ defaultDomain cfg ++ "/" ++ dirName

/-- Line 122: `` originUrl = `http://${defaultDomain}/${dirName}/index.html` `` —
always built on the canonical default domain. -/
def deployOriginUrl (cfg : QiniuConfig) (dirName : String) : String :=
  "http://" ++ defaultDomain cfg ++ "/" ++ dirName ++ "/index.html"

/-- Line 123: the signed index URL, signature over the canonical origin URL. -/
def deploySignedUrl (cfg : QiniuConfig) (dirName : String) (deadline : Nat) :
    String :=
  privateDownloadUrlFull cfg.secretKey cfg.accessKey (deployOriginUrl cfg dirName)
    deadline

/-- The string whose HMAC the deploy-time index URL embeds. -/
def deploySignBase (cfg : QiniuConfig) (dirName : String) (deadline : Nat) :
    String :=
  privateDownloadSignBase (deployOriginUrl cfg dirName) deadline

/-- Lines 126–129: after signing, the default domain is replaced by the
custom domain (first occurrence, plain JS string `replace`) when one is
configured. -/
def deployIndexUrl (cfg : QiniuConfig) (dirName : String) (deadline : Nat) :
    String :=
  let signedUrl := deploySignedUrl cfg dirName deadline
  if cfg.domain ≠ "" then replaceFirst signedUrl (defaultDomain cfg) cfg.domain
  else signedUrl

/-! ### Preview Proxy — src/src/app.js, `app.get('/preview/:path(*)')` -/

/-- Line 46: `` req.params.path.replace(/\/$/, '') `` — strip at most one
trailing slash. -/
def stripOneTrailingSlash (s : String) : String :=
  if lastIs s '/' then String.mk s.data.dropLast else s

/-- Lines 54–60: resolve the client path to a storage key; `index.html` is
appended when the stripped path contains no `.` at all or still ends in `/`. -/
def resolveFileKey (path : String) : String :=
  let previewPath := stripOneTrailingSlash path
  if !containsChar previewPath '.' || lastIs previewPath '/' then
    if lastIs previewPath '/' then previewPath ++ "index.html"
    else previewPath ++ "/index.html"
  else previewPath

/-- JS `str.split(c)` for a one-character separator, on character lists. -/
def splitOnChar (c : Char) : List Char → List (List Char)
  | [] => [[]]
  | x :: rest =>
    let r := splitOnChar c rest
    if x = c then [] :: r
    else (x :: r.headD []) :: r.tail

/-- Line 87: `` fileKey.split('.').pop().toLowerCase() ``. -/
def extOf (fileKey : String) : String :=
  String.mk (((splitOnChar '.' fileKey.data).getLastD []).map toLowerAscii)

/-- Lines 88–108: Content-Type inferred from the resolved key's extension via
the fixed table; the upstream response's own headers are never consulted. -/
def contentTypeFor (fileKey : String) : String :=
  let ext := extOf fileKey
  if ext = "html" ∨ ext = "htm" then "text/html; charset=utf-8"
  else if ext = "css" then "text/css; charset=utf-8"
  else if ext = "js" then "application/javascript; charset=utf-8"
  else if ext = "json" then "application/json; charset=utf-8"
  else if ext = "png" then "image/png"
  else if ext = "jpg" ∨ ext = "jpeg" then "image/jpeg"
  else if ext = "gif" then "image/gif"
  else if ext = "svg" then "image/svg+xml"
  else if ext = "ico" then "image/x-icon"
  else "text/plain; charset=utf-8"

/-- Lines 66–67: the proxy's signing domain — the configured display domain
when present, else the canonical default domain; an `http://` scheme is
prepended when the value does not already start with `http`. -/
def previewDomainWithProtocol (cfg : QiniuConfig) : String :=
  let domain := if cfg.domain ≠ "" then cfg.domain else defaultDomain cfg
  if startsWithStr domain "http" then domain else "http://" ++ domain

/-- The string whose HMAC the proxy's per-request signed URL embeds
(lines 70–72: `privateDownloadUrl(domainWithProtocol, fileKey, deadline)`
signs `<domain>/<fileKey>?e=<deadline>`). -/
def previewSignBase (cfg : QiniuConfig) (fileKey : String) (deadline : Nat) :
    String :=
  privateDownloadSignBase (previewDomainWithProtocol cfg ++ "/" ++ fileKey) deadline

/-- Line 72: the proxy's signed URL; no further substitution is applied. -/
def previewSignedUrl (cfg : QiniuConfig) (fileKey : String) (deadline : Nat) :
    String :=
  privateDownloadUrlFull cfg.secretKey cfg.accessKey
    (previewDomainWithProtocol cfg ++ "/" ++ fileKey) deadline

/-! ### part_005's manual preview signer (lines 48–65) -/

/-- Line 53: `` pathAndQuery = `/${fileKey}?e=${deadline}` ``. -/
def part005PathAndQuery (fileKey : String) (deadline : Nat) : String :=
  "/" ++ fileKey ++ "?e=" ++ toString deadline

/-- Lines 55–58: HMAC-SHA1 of the path-and-query keyed by the secret key,
base64, then `+`→`-`, `/`→`_`, trailing `=` stripped. -/
def part005EncodedSig (secretKey fileKey : String) (deadline : Nat) : String :=
  let signature := hmacSha1Base64 secretKey (part005PathAndQuery fileKey deadline)
  stripTrailingEquals (jsReplaceAllChar '/' '_' (jsReplaceAllChar '+' '-' signature))

/-- Lines 61–65: the assembled signed URL, with the default domain replaced
by the configured custom domain afterwards when present. -/
def part005SignedUrl (cfg : QiniuConfig) (fileKey : String) (deadline : Nat) :
    String :=
  let url := "http://" ++ defaultDomain cfg ++ "/" ++ fileKey ++ "?e=" ++
    toString deadline ++ "&token=" ++ cfg.accessKey ++ ":" ++
    part005EncodedSig cfg.secretKey fileKey deadline
  if cfg.domain ≠ "" then replaceFirst url (defaultDomain cfg) cfg.domain else url

/-! ### History Store — src/unnamed/part_002

A persisted record. Fields other than the ones the store itself touches
(`id`, `createdAt`, `updatedAt`) are opaque to the store and collapsed into
`payload`. -/

structure HistoryRecord where
  id : String
  createdAt : String
  updatedAt : String
  payload : String
deriving DecidableEq, Repr, Inhabited

/-- The caller-supplied record for `saveRecord`; `id`/`createdAt` may be
absent (`none`), in which case the store fills in defaults. -/
structure RecordInput where
  id : Option String
  createdAt : Option String
  payload : String
deriving DecidableEq, Repr

/-- part_002 lines 37–42: the object actually stored —
`id: record.id || Date.now().toString()`, `createdAt: record.createdAt || now`,
`updatedAt: now`. `nowId` stands for `Date.now().toString()` and `nowIso` for
`new Date().toISOString()` at the time of the call. -/
def mkStored (nowId nowIso : String) (r : RecordInput) : HistoryRecord :=
  { id := r.id.getD nowId, createdAt := r.createdAt.getD nowIso,
    updatedAt := nowIso, payload := r.payload }

/-- part_002 lines 33–51 (`saveRecord`), on the in-memory list: `unshift` the
new record, then `slice(0, 50)`. -/
def saveRecord (nowId nowIso : String) (r : RecordInput)
    (history : List HistoryRecord) : List HistoryRecord :=
  (mkStored nowId nowIso r :: history).take 50

/-- part_002 lines 60–78 (`updateRecord`), on the in-memory list: find the
first record with the given id; if none, leave the list unchanged (the
source returns `null` before rewriting); otherwise overwrite that entry with
the merged record, `updatedAt` forced to now. The object-spread merge of the
partial update is modelled as the function `updates`. -/
def updateRecord (nowIso id : String) (updates : HistoryRecord → HistoryRecord)
    (history : List HistoryRecord) : List HistoryRecord :=
  match history.findIdx? (fun r => r.id == id) with
  | none => history
  | some i => history.set i { updates (history.getD i default) with updatedAt := nowIso }

/-- part_002 lines 81–89 (`deleteRecord`), on the in-memory list:
`filter(r => r.id !== id)`. -/
def deleteRecord (id : String) (history : List HistoryRecord) :
    List HistoryRecord :=
  history.filter (fun r => r.id != id)

/-- part_002 lines 22–30 (`getHistory`): read the history file and
`JSON.parse` it, returning `[]` when either step throws. The filesystem read
is the oracle `readResult` (`.error` for a missing/unreadable file) and the
parser is the oracle `parse` (`.error` for invalid JSON). -/
def getHistory (readResult : Except String String)
    (parse : String → Except String (List HistoryRecord)) :
    List HistoryRecord :=
  match readResult with
  | .error _ => []
  | .ok data =>
    match parse data with
    | .error _ => []
    | .ok h => h

/-- part_002 lines 54–57 (`getRecord`): `history.find(r => r.id === id)` on
the freshly read store. -/
def getRecordFS (readResult : Except String String)
    (parse : String → Except String (List HistoryRecord)) (id : String) :
    Option HistoryRecord :=
  (getHistory readResult parse).find? (fun r => r.id == id)

/-- `saveRecord` at the store level: the list written back to disk is the
pure `saveRecord` applied to whatever `getHistory` read. -/
def saveRecordFS (readResult : Except String String)
    (parse : String → Except String (List HistoryRecord))
    (nowId nowIso : String) (r : RecordInput) : List HistoryRecord :=
  saveRecord nowId nowIso r (getHistory readResult parse)

/-- `deleteRecord` at the store level: the list written back to disk. -/
def deleteRecordFS (readResult : Except String String)
    (parse : String → Except String (List HistoryRecord)) (id : String) :
    List HistoryRecord :=
  deleteRecord id (getHistory readResult parse)

/-! ### Directory Enumerator — `readDirRecursive`
(src/unnamed/part_004 lines 153–173, src/src/services/qiniu.js lines 128–148)

The local file tree is modelled as a finite tree; `fs.readdir(dir,
{withFileTypes: true})` returns a directory's children in order. `sep` is the
host path separator (`"/"` on POSIX, `"\\"` on Windows). -/

inductive FSNode where
  | file (name : String)
  | dir (name : String) (entries : List FSNode)
deriving Repr

/-- Node `path.join(dir, name)` for a nonempty `dir` and plain `name`. -/
def pathJoin (sep : String) (dir name : String) : String := dir ++ sep ++ name

/-- Node `path.relative(baseDir, fullPath)` for a `fullPath` strictly below
`baseDir`: drop the base and the following separator character. -/
def pathRelative (baseDir fullPath : String) : String :=
  dropChars fullPath (baseDir.data.length + 1)

/-- Line 159: `` .replace(/\\/g, '/') ``. -/
def backslashToSlash (s : String) : String := jsReplaceAllChar '\\' '/' s

/-- One enumerated file: absolute path plus storage-relative path. -/
structure FileEntry where
  path : String
  relativePath : String
deriving DecidableEq, Repr

/-- `readDirRecursive(dir, baseDir)`: walk the entries of `dirPath` in order;
a directory contributes its recursive walk, a file contributes one
`FileEntry` whose `relativePath` is `path.relative(baseDir, fullPath)` with
backslashes rewritten to forward slashes. -/
def readDirRecursive (sep base : String) : String → List FSNode → List FileEntry
  | _, [] => []
  | dirPath, FSNode.file name :: rest =>
    let fullPath := pathJoin sep dirPath name
    { path := fullPath,
      relativePath := backslashToSlash (pathRelative base fullPath) } ::
      readDirRecursive sep base dirPath rest
  | dirPath, FSNode.dir name children :: rest =>
    readDirRecursive sep base (pathJoin sep dirPath name) children ++
      readDirRecursive sep base dirPath rest
termination_by _ entries => sizeOf entries
decreasing_by all_goals (simp_wf; try omega)

/-- The number of plain files in a directory listing, at any depth. -/
def countFilesList : List FSNode → Nat
  | [] => 0
  | FSNode.file _ :: rest => 1 + countFilesList rest
  | FSNode.dir _ children :: rest => countFilesList children + countFilesList rest
termination_by entries => sizeOf entries
decreasing_by all_goals (simp_wf; try omega)

/-- The character map applied by `` .replace(/\\/g, '/') ``. -/
def slashFn (c : Char) : Char := if c = '\\' then '/' else c

/-- Spec-side canonical storage-relative paths of a listing: the names along
the way joined with single forward slashes, one path per file, in traversal
order. `pre` is the already-joined prefix (ending in `'/'` when nonempty). -/
def relPaths (pre : List Char) : List FSNode → List (List Char)
  | [] => []
  | FSNode.file n :: rest => (pre ++ n.data) :: relPaths pre rest
  | FSNode.dir n children :: rest =>
    relPaths (pre ++ n.data ++ ['/']) children ++ relPaths pre rest
termination_by entries => sizeOf entries
decreasing_by all_goals (simp_wf; try omega)

/-- The relative-path data `readDirRecursive` produces below a directory
whose path exceeds the base by the character suffix `t`, before any
simplification: mirror of the walk at the level of `List Char`. -/
def relAux (sepd t : List Char) : List FSNode → List (List Char)
  | [] => []
  | FSNode.file n :: rest =>
    ((t ++ sepd ++ n.data).drop 1).map slashFn :: relAux sepd t rest
  | FSNode.dir n children :: rest =>
    relAux sepd (t ++ sepd ++ n.data) children ++ relAux sepd t rest
termination_by entries => sizeOf entries
decreasing_by all_goals (simp_wf; try omega)

/-- The canonical prefix corresponding to a path suffix `t` (which always
starts with a separator when nonempty). -/
def preOf (t : List Char) : List Char :=
  if t = [] then [] else (t.drop 1).map slashFn ++ ['/']

/-- Entry and directory names free of backslashes (true of any name a host
filesystem API returns on either separator convention). -/
def goodNames : List FSNode → Bool
  | [] => true
  | FSNode.file n :: rest => !n.data.contains '\\' && goodNames rest
  | FSNode.dir n children :: rest =>
    !n.data.contains '\\' && goodNames children && goodNames rest
termination_by entries => sizeOf entries
decreasing_by all_goals (simp_wf; try omega)

/-! ### Bulk Uploader — part_004 `deployToQiniu`, lines 37–148

The per-file network outcome (`fs.readFile` + `formUploader.put`) is the
oracle `uploadOk`; `true` means the upload promise resolves, `false` that it
rejects and the `catch` block runs. -/

/-- The result object of `deployToQiniu` (lines 139–147), minus the URL
fields covered by `deployBaseUrl`/`deployIndexUrl`. -/
structure DeployResult where
  success : Bool
  dirName : String
  uploadedCount : Nat
  failedCount : Nat
deriving DecidableEq, Repr

/-- Lines 77–103: the sequential upload loop with per-file `try`/`catch`
accumulating `(uploadedCount, failedCount)`. -/
def uploadLoop (uploadOk : FileEntry → Bool) (files : List FileEntry) :
    Nat × Nat :=
  files.foldl
    (fun counts f =>
      if uploadOk f then (counts.1 + 1, counts.2) else (counts.1, counts.2 + 1))
    (0, 0)

/-- `deployToQiniu`: configuration validation (lines 41–46), deterministic
naming (lines 49–50), the upload loop, and the returned counts. A thrown
configuration error is `.error`; the loop itself never throws. -/
def deployToQiniu (secret : String) (cfg : QiniuConfig) (companyName : String)
    (files : List FileEntry) (uploadOk : FileEntry → Bool) :
    Except String DeployResult :=
  if cfg.accessKey = "" ∨ cfg.secretKey = "" then
    .error "未配置七牛云 AccessKey 或 SecretKey"
  else if cfg.bucket = "" then
    .error "未配置七牛云 Bucket"
  else
    let dirName := dirNameOf secret companyName
    let counts := uploadLoop uploadOk files
    .ok { success := true, dirName := dirName,
          uploadedCount := counts.1, failedCount := counts.2 }

/-! ### Teardown — part_004 `deleteFromQiniu`, lines 194–239

`listPrefix` and `batch` are network calls, modelled as oracles: `listing` is
the listing callback's outcome (`.error e` for `err`, otherwise the status
code and item keys), `batch` maps the list of keys to the per-operation
result codes (`.error` for `err2`). -/

structure ListingResponse where
  statusCode : Nat
  items : List String
deriving DecidableEq, Repr

/-- The resolved value of `deleteFromQiniu`; fields the source leaves off an
early-resolved object are `none`. -/
structure DeleteOutcome where
  success : Bool
  deletedCount : Option Nat
  totalCount : Option Nat
  message : Option String
deriving DecidableEq, Repr

/-- `deleteFromQiniu`: config check (lines 197–199), listing (206–218),
batched delete (221–236). A rejected promise is `.error`. -/
def deleteFromQiniu (cfg : QiniuConfig) (listing : Except String ListingResponse)
    (batch : List String → Except String (List Nat)) :
    Except String DeleteOutcome :=
  if cfg.accessKey = "" ∨ cfg.secretKey = "" ∨ cfg.bucket = "" then
    .error "七牛云配置不完整"
  else
    match listing with
    | .error e => .error e
    | .ok resp =>
      if resp.statusCode ≠ 200 then
        .ok { success := true, deletedCount := none, totalCount := none,
              message := some "目录为空或不存在" }
      else if resp.items.isEmpty then
        .ok { success := true, deletedCount := none, totalCount := none,
              message := some "目录为空" }
      else
        match batch resp.items with
        | .error e2 => .error e2
        | .ok codes =>
          .ok { success := true,
                deletedCount := some (codes.countP (· == 200)),
                totalCount := some resp.items.length, message := none }

/-! ## Lemmas and claim theorems -/

theorem countP_not_add (p : FileEntry → Bool) (l : List FileEntry) :
    l.countP p + l.countP (fun a => !p a) = l.length := by
  induction l with
  | nil => rfl
  | cons a l ih =>
    simp only [List.countP_cons, List.length_cons]
    cases h : p a <;> simp [h] <;> omega

theorem uploadLoop_go (ok : FileEntry → Bool) (files : List FileEntry)
    (a b : Nat) :
    files.foldl
      (fun counts f =>
        if ok f then (counts.1 + 1, counts.2) else (counts.1, counts.2 + 1))
      (a, b) =
      (a + files.countP ok, b + files.countP (fun f => !ok f)) := by
  induction files generalizing a b with
  | nil => simp
  | cons f rest ih =>
    simp only [List.foldl_cons, List.countP_cons]
    cases h : ok f <;> simp [h, ih] <;> omega

theorem uploadLoop_eq (ok : FileEntry → Bool) (files : List FileEntry) :
    uploadLoop ok files = (files.countP ok, files.countP (fun f => !ok f)) := by
  simpa using uploadLoop_go ok files 0 0

/-- C4: with valid configuration, a batch of `N` files of which exactly `k`
individual uploads fail (`0 < k < N`) does not throw: every per-file failure
is caught and counted, and the call returns `uploadedCount = N - k` and
`failedCount = k`, so the two counts sum to the number of files attempted. -/
theorem bulkUpload_partial_failure (secret : String) (cfg : QiniuConfig)
    (companyName : String) (files : List FileEntry) (uploadOk : FileEntry → Bool)
    (k : Nat)
    (hak : cfg.accessKey ≠ "") (hsk : cfg.secretKey ≠ "") (hb : cfg.bucket ≠ "")
    (hk : files.countP (fun f => !uploadOk f) = k)
    (_hkpos : 0 < k) (hkN : k < files.length) :
    deployToQiniu secret cfg companyName files uploadOk =
      .ok { success := true, dirName := dirNameOf secret companyName,
            uploadedCount := files.length - k, failedCount := k } := by
  have hsum := countP_not_add uploadOk files
  have hc1 : ¬(cfg.accessKey = "" ∨ cfg.secretKey = "") := by simp [hak, hsk]
  have hc2 : ¬cfg.bucket = "" := hb
  unfold deployToQiniu
  rw [if_neg hc1, if_neg hc2]
  have hup : files.countP uploadOk = files.length - k := by omega
  simp [uploadLoop_eq, hup, hk]

/-- C4 witness: a concrete 5-file batch where only upload #3 fails returns
`uploadedCount = 4`, `failedCount = 1`. -/
theorem bulkUpload_partial_failure_witness :
    ([{ path := "/site/f1", relativePath := "f1" },
      { path := "/site/f2", relativePath := "f2" },
      { path := "/site/f3", relativePath := "f3" },
      { path := "/site/f4", relativePath := "f4" },
      { path := "/site/f5", relativePath := "f5" }] :
        List FileEntry).countP (fun f => !(f.relativePath != "f3")) = 1 ∧
    (0 : Nat) < 1 ∧ (1 : Nat) < 5 ∧
    deployToQiniu "secret" ⟨"ak", "sk", "bucket", "z0", ""⟩ "Acme"
      [{ path := "/site/f1", relativePath := "f1" },
       { path := "/site/f2", relativePath := "f2" },
       { path := "/site/f3", relativePath := "f3" },
       { path := "/site/f4", relativePath := "f4" },
       { path := "/site/f5", relativePath := "f5" }]
      (fun f => f.relativePath != "f3") =
      .ok { success := true, dirName := dirNameOf "secret" "Acme",
            uploadedCount := 4, failedCount := 1 } :=
  ⟨by decide, by decide, by decide,
    bulkUpload_partial_failure "secret" ⟨"ak", "sk", "bucket", "z0", ""⟩ "Acme"
      _ _ 1 (by decide) (by decide) (by decide) (by decide) (by decide)
      (by decide)⟩

/-- C5: `saveRecord` prepends the stored record and keeps at most the 50
most-recent entries: the head is the new record, the length is
`min (previous + 1) 50`, a save from a full store of 50 drops exactly the
last (oldest) entry, and the `length ≤ 50` bound is preserved by save,
update and delete. -/
theorem historyStore_bound (nowId nowIso : String) (r : RecordInput)
    (history : List HistoryRecord) (uid unow did : String)
    (up : HistoryRecord → HistoryRecord)
    (hlen : history.length ≤ 50) :
    (saveRecord nowId nowIso r history).head? = some (mkStored nowId nowIso r) ∧
    (saveRecord nowId nowIso r history).length = min (history.length + 1) 50 ∧
    (saveRecord nowId nowIso r history).length ≤ 50 ∧
    saveRecord nowId nowIso r history =
      mkStored nowId nowIso r :: history.take 49 ∧
    (updateRecord unow uid up history).length ≤ 50 ∧
    (deleteRecord did history).length ≤ 50 := by
  refine ⟨rfl, ?_, ?_, rfl, ?_, ?_⟩
  · simp only [saveRecord, List.length_take, List.length_cons]
    omega
  · simp only [saveRecord, List.length_take, List.length_cons]
    omega
  · unfold updateRecord
    cases h : history.findIdx? (fun rec => rec.id == uid) with
    | none => simpa using hlen
    | some i => simpa [List.length_set] using hlen
  · exact le_trans (List.length_filter_le _ _) hlen

/-- C5 witness: saving a 51st record onto a full store of 50 keeps the head
new and the length at 50. -/
theorem historyStore_bound_witness :
    (List.replicate 50
        ({ id := "0", createdAt := "c", updatedAt := "u", payload := "p" } :
          HistoryRecord)).length ≤ 50 ∧
    ((saveRecord "id51" "t51" { id := none, createdAt := none, payload := "q" }
        (List.replicate 50
          { id := "0", createdAt := "c", updatedAt := "u", payload := "p" })).head? =
      some (mkStored "id51" "t51" { id := none, createdAt := none, payload := "q" }) ∧
    (saveRecord "id51" "t51" { id := none, createdAt := none, payload := "q" }
        (List.replicate 50
          { id := "0", createdAt := "c", updatedAt := "u", payload := "p" })).length =
      min ((List.replicate 50
          ({ id := "0", createdAt := "c", updatedAt := "u", payload := "p" } :
            HistoryRecord)).length + 1) 50 ∧
    (saveRecord "id51" "t51" { id := none, createdAt := none, payload := "q" }
        (List.replicate 50
          { id := "0", createdAt := "c", updatedAt := "u", payload := "p" })).length ≤ 50 ∧
    saveRecord "id51" "t51" { id := none, createdAt := none, payload := "q" }
        (List.replicate 50
          { id := "0", createdAt := "c", updatedAt := "u", payload := "p" }) =
      mkStored "id51" "t51" { id := none, createdAt := none, payload := "q" } ::
        (List.replicate 50
          ({ id := "0", createdAt := "c", updatedAt := "u", payload := "p" } :
            HistoryRecord)).take 49 ∧
    (updateRecord "u2" "0" id
        (List.replicate 50
          { id := "0", createdAt := "c", updatedAt := "u", payload := "p" })).length ≤ 50 ∧
    (deleteRecord "0"
        (List.replicate 50
          { id := "0", createdAt := "c", updatedAt := "u", payload := "p" })).length ≤ 50) :=
  ⟨by decide,
    historyStore_bound "id51" "t51" _ _ "0" "u2" "0" id (by decide)⟩

/-- C7 (amended): teardown aborts on listing failure without consulting the
batch-delete at all; an empty listing resolves successfully with no
`deletedCount` reported; a nonempty listing issues the batched delete and
reports `deletedCount` = number of per-key results with code 200 and
`totalCount` = number of listed keys, succeeding even when some keys fail. -/
theorem teardown_amended (ak sk bucket zone domain e : String)
    (b₁ b₂ : List String → Except String (List Nat))
    (items : List String) (codes : List Nat)
    (batch : List String → Except String (List Nat))
    (hak : ak ≠ "") (hsk : sk ≠ "") (hb : bucket ≠ "")
    (hne : items ≠ []) (hbatch : batch items = .ok codes) :
    deleteFromQiniu ⟨ak, sk, bucket, zone, domain⟩ (.error e) b₁ = .error e ∧
    deleteFromQiniu ⟨ak, sk, bucket, zone, domain⟩ (.error e) b₁ =
      deleteFromQiniu ⟨ak, sk, bucket, zone, domain⟩ (.error e) b₂ ∧
    deleteFromQiniu ⟨ak, sk, bucket, zone, domain⟩ (.ok ⟨200, []⟩) batch =
      .ok ⟨true, none, none, some "目录为空"⟩ ∧
    deleteFromQiniu ⟨ak, sk, bucket, zone, domain⟩ (.ok ⟨200, items⟩) batch =
      .ok ⟨true, some (codes.countP (· == 200)), some items.length, none⟩ := by
  have hcfg : ¬(ak = "" ∨ sk = "" ∨ bucket = "") := by simp [hak, hsk, hb]
  refine ⟨?_, ?_, ?_, ?_⟩
  · simp [deleteFromQiniu, hcfg]
  · simp [deleteFromQiniu, hcfg]
  · simp [deleteFromQiniu, hcfg]
  · simp [deleteFromQiniu, hcfg, hne, hbatch]

/-- C7 witness: concrete instances of the amended teardown behavior,
including a partial batch failure (codes 200 and 612) counted as one
confirmed deletion out of two keys. -/
theorem teardown_amended_witness :
    ("ak" : String) ≠ "" ∧ ("sk" : String) ≠ "" ∧ ("bucket" : String) ≠ "" ∧
    (["p/a", "p/b"] : List String) ≠ [] ∧
    ((fun keys => if keys = ["p/a", "p/b"] then Except.ok [200, 612]
      else Except.error "unexpected") ["p/a", "p/b"] :
        Except String (List Nat)) = .ok [200, 612] ∧
    deleteFromQiniu ⟨"ak", "sk", "bucket", "z0", ""⟩ (.ok ⟨200, ["p/a", "p/b"]⟩)
        (fun keys => if keys = ["p/a", "p/b"] then Except.ok [200, 612]
          else Except.error "unexpected") =
      .ok ⟨true, some (([200, 612] : List Nat).countP (· == 200)),
        some (["p/a", "p/b"] : List String).length, none⟩ :=
  ⟨by decide, by decide, by decide, by decide, rfl,
    (teardown_amended "ak" "sk" "bucket" "z0" "" "err" (fun _ => .ok [])
      (fun _ => .ok []) ["p/a", "p/b"] [200, 612] _
      (by decide) (by decide) (by decide) (by decide) rfl).2.2.2⟩

/-- C7 counterexample: on an empty listing the source resolves success with
no `deletedCount` field at all (it is `undefined`), not `deletedCount = 0`
as the claim states. -/
theorem teardown_empty_no_count :
    ¬ ∃ r : DeleteOutcome,
      deleteFromQiniu ⟨"ak", "sk", "bucket", "z0", ""⟩ (.ok ⟨200, []⟩)
        (fun _ => .ok []) = .ok r ∧ r.deletedCount = some 0 := by
  rintro ⟨r, h1, h2⟩
  have h1' : (Except.ok (⟨true, none, none, some "目录为空"⟩ : DeleteOutcome) :
      Except String DeleteOutcome) = .ok r := h1
  cases h1'
  cases h2

/-- C10: `getHistory` never throws — a missing/unreadable history file or
invalid JSON yields the empty list, lookups on such a store report not
found, and the next mutating call rewrites the store starting from empty. -/
theorem historyRead_resilient (readResult : Except String String)
    (parse : String → Except String (List HistoryRecord))
    (msg s nowId nowIso id : String) (r : RecordInput)
    (h : readResult = .error msg ∨
      (readResult = .ok s ∧ parse s = .error msg)) :
    getHistory readResult parse = [] ∧
    getRecordFS readResult parse id = none ∧
    saveRecordFS readResult parse nowId nowIso r = [mkStored nowId nowIso r] ∧
    deleteRecordFS readResult parse id = [] := by
  have hg : getHistory readResult parse = [] := by
    rcases h with h | ⟨h1, h2⟩
    · subst h
      rfl
    · subst h1
      simp [getHistory, h2]
  exact ⟨hg, by simp [getRecordFS, hg], by simp [saveRecordFS, saveRecord, hg],
    by simp [deleteRecordFS, deleteRecord, hg]⟩

/-- C10 witness: a store whose file reads as non-JSON text behaves exactly
like an empty store. -/
theorem historyRead_resilient_witness :
    ((Except.ok "corrupt json" : Except String String) = .error "e" ∨
      ((Except.ok "corrupt json" : Except String String) = .ok "corrupt json" ∧
        (fun _ : String =>
            (Except.error "SyntaxError" : Except String (List HistoryRecord)))
          "corrupt json" = .error "SyntaxError")) ∧
    (getHistory (.ok "corrupt json")
        (fun _ => (Except.error "SyntaxError" : Except String (List HistoryRecord))) = [] ∧
    getRecordFS (.ok "corrupt json")
        (fun _ => (Except.error "SyntaxError" : Except String (List HistoryRecord)))
        "someId" = none ∧
    saveRecordFS (.ok "corrupt json")
        (fun _ => (Except.error "SyntaxError" : Except String (List HistoryRecord)))
        "nid" "niso" { id := none, createdAt := none, payload := "p" } =
      [mkStored "nid" "niso" { id := none, createdAt := none, payload := "p" }] ∧
    deleteRecordFS (.ok "corrupt json")
        (fun _ => (Except.error "SyntaxError" : Except String (List HistoryRecord)))
        "someId" = []) :=
  ⟨Or.inr ⟨rfl, rfl⟩,
    historyRead_resilient (.ok "corrupt json") _ "SyntaxError" "corrupt json" "nid"
      "niso" "someId" _ (Or.inr ⟨rfl, rfl⟩)⟩

/-- C6 counterexample: the claim's rule says a path ending in a separator
gets `index.html` appended, but for `"foo.bar/"` (whose stripped remainder
contains a dot and no longer ends in `/`) the proxy fetches `"foo.bar"`
verbatim. -/
theorem previewKey_separator_counterexample :
    resolveFileKey "foo.bar/" = "foo.bar" ∧
    ("foo.bar" : String) ≠ "foo.bar/index.html" := by decide

/-- C6 (amended): the proxy strips at most one trailing `/` and appends
`index.html` only when the remainder has no dot anywhere or still ends in
`/`; the Content-Type is a function of the resolved key's (lowercased, last
`.`-separated) extension alone via the fixed table, whose text entries carry
`; charset=utf-8`; the spec's two examples hold. -/
theorem previewContentType_amended :
    resolveFileKey "css/style.css" = "css/style.css" ∧
    contentTypeFor (resolveFileKey "css/style.css") = "text/css; charset=utf-8" ∧
    resolveFileKey "acme-ab12cd34/" = "acme-ab12cd34/index.html" ∧
    contentTypeFor (resolveFileKey "acme-ab12cd34/") = "text/html; charset=utf-8" ∧
    (∀ k₁ k₂ : String, extOf k₁ = extOf k₂ →
      contentTypeFor k₁ = contentTypeFor k₂) ∧
    (∀ k : String, extOf k = "html" ∨ extOf k = "htm" →
      contentTypeFor k = "text/html; charset=utf-8") ∧
    (∀ k : String, extOf k = "css" → contentTypeFor k = "text/css; charset=utf-8") ∧
    (∀ k : String, extOf k = "js" →
      contentTypeFor k = "application/javascript; charset=utf-8") ∧
    (∀ k : String, extOf k = "json" →
      contentTypeFor k = "application/json; charset=utf-8") ∧
    (∀ k : String, extOf k = "png" → contentTypeFor k = "image/png") ∧
    (∀ k : String, extOf k = "jpg" ∨ extOf k = "jpeg" →
      contentTypeFor k = "image/jpeg") ∧
    (∀ k : String, extOf k = "gif" → contentTypeFor k = "image/gif") ∧
    (∀ k : String, extOf k = "svg" → contentTypeFor k = "image/svg+xml") ∧
    (∀ k : String, extOf k = "ico" → contentTypeFor k = "image/x-icon") ∧
    (∀ k : String, extOf k ≠ "html" → extOf k ≠ "htm" → extOf k ≠ "css" →
      extOf k ≠ "js" → extOf k ≠ "json" → extOf k ≠ "png" → extOf k ≠ "jpg" →
      extOf k ≠ "jpeg" → extOf k ≠ "gif" → extOf k ≠ "svg" → extOf k ≠ "ico" →
      contentTypeFor k = "text/plain; charset=utf-8") := by
  refine ⟨by decide, by decide, by decide, by decide, ?_, ?_, ?_, ?_, ?_, ?_,
    ?_, ?_, ?_, ?_, ?_⟩
  · intro k₁ k₂ h
    simp only [contentTypeFor, h]
  · intro k h
    rcases h with h | h <;> simp [contentTypeFor, h]
  · intro k h
    simp [contentTypeFor, h]
  · intro k h
    simp [contentTypeFor, h]
  · intro k h
    simp [contentTypeFor, h]
  · intro k h
    simp [contentTypeFor, h]
  · intro k h
    rcases h with h | h <;> simp [contentTypeFor, h]
  · intro k h
    simp [contentTypeFor, h]
  · intro k h
    simp [contentTypeFor, h]
  · intro k h
    simp [contentTypeFor, h]
  · intro k h1 h2 h3 h4 h5 h6 h7 h8 h9 h10 h11
    simp [contentTypeFor, h1, h2, h3, h4, h5, h6, h7, h8, h9, h10, h11]

/-- C6 witness: a concrete uppercase-extension key goes through the table
via its lowercased extension. -/
theorem previewContentType_amended_witness :
    extOf "css/STYLE.CSS" = "css" ∧
    contentTypeFor "css/STYLE.CSS" = "text/css; charset=utf-8" :=
  ⟨by decide, previewContentType_amended.2.2.2.2.2.2.1 "css/STYLE.CSS" (by decide)⟩

/-- C9 counterexample: for `"foo.bar//"` the stripped remainder `"foo.bar/"`
contains a `.`, yet the proxy appends `index.html` because the remainder
still ends in `/` — so "append iff no dot anywhere" is not the rule. -/
theorem previewKey_rule_counterexample :
    containsChar (stripOneTrailingSlash "foo.bar//") '.' = true ∧
    resolveFileKey "foo.bar//" = "foo.bar/index.html" := by decide

/-- C9 (amended): the proxy's actual rule — after stripping at most one
trailing `/`, it appends (`index.html` when the remainder still ends in `/`,
else `/index.html`) iff the remainder contains no `.` anywhere OR still ends
in `/`; in particular a dot in a directory segment suppresses the append for
paths that no longer end in `/`, so `"v1.2/docs"` is fetched verbatim. -/
theorem previewKey_rule_amended (p : String) :
    resolveFileKey p =
      (if containsChar (stripOneTrailingSlash p) '.' = false ∨
          lastIs (stripOneTrailingSlash p) '/' = true then
        if lastIs (stripOneTrailingSlash p) '/' = true then
          stripOneTrailingSlash p ++ "index.html"
        else stripOneTrailingSlash p ++ "/index.html"
      else stripOneTrailingSlash p) ∧
    resolveFileKey "v1.2/docs" = "v1.2/docs" := by
  constructor
  · unfold resolveFileKey
    rcases h1 : containsChar (stripOneTrailingSlash p) '.' <;>
      rcases h2 : lastIs (stripOneTrailingSlash p) '/' <;>
        simp [h1, h2]
  · decide

/-- C2 counterexample: with a custom display domain configured, the preview
proxy's string-to-sign is built on the custom domain, not on the canonical
default domain the claim requires. -/
theorem urlSigner_proxy_custom_domain_counterexample :
    previewSignBase ⟨"ak", "sk", "mybucket", "z0", "cdn.example.com"⟩ "k" 100 =
      "http://cdn.example.com/k?e=100" ∧
    previewSignBase ⟨"ak", "sk", "mybucket", "z0", "cdn.example.com"⟩ "k" 100 ≠
      "http://" ++
        defaultDomain ⟨"ak", "sk", "mybucket", "z0", "cdn.example.com"⟩ ++
        "/k?e=100" := by decide

/-- C2 (amended): the deploy-time index URL is always signed against the
canonical default domain, with the custom domain substituted by string
replacement only after signing, and verbatim canonical output with no
substitution when no custom domain is configured; the preview proxy signs
against the canonical domain only when no custom domain is configured — with
one configured it builds and signs the URL directly on the display domain
and performs no substitution. -/
theorem urlSigner_domains_amended (ak sk bucket zone d dn k : String)
    (dl : Nat) (hd : d ≠ "")
    (hhttp : startsWithStr (defaultDomain ⟨ak, sk, bucket, zone, ""⟩) "http" =
      false) :
    deploySignBase ⟨ak, sk, bucket, zone, d⟩ dn dl =
      "http://" ++ bucket ++ "." ++ zone ++ ".qiniucs.com" ++ "/" ++ dn ++
        "/index.html" ++ "?e=" ++ toString dl ∧
    deployIndexUrl ⟨ak, sk, bucket, zone, d⟩ dn dl =
      replaceFirst (deploySignedUrl ⟨ak, sk, bucket, zone, d⟩ dn dl)
        (defaultDomain ⟨ak, sk, bucket, zone, d⟩) d ∧
    deployIndexUrl ⟨ak, sk, bucket, zone, ""⟩ dn dl =
      deploySignedUrl ⟨ak, sk, bucket, zone, ""⟩ dn dl ∧
    previewSignBase ⟨ak, sk, bucket, zone, ""⟩ k dl =
      "http://" ++ bucket ++ "." ++ zone ++ ".qiniucs.com" ++ "/" ++ k ++
        "?e=" ++ toString dl ∧
    previewSignedUrl ⟨ak, sk, bucket, zone, ""⟩ k dl =
      previewSignBase ⟨ak, sk, bucket, zone, ""⟩ k dl ++ "&token=" ++ ak ++
        ":" ++ qiniuUrlSafe (hmacSha1Base64 sk
          (previewSignBase ⟨ak, sk, bucket, zone, ""⟩ k dl)) ∧
    previewSignBase ⟨ak, sk, bucket, zone, d⟩ k dl =
      (if startsWithStr d "http" then d else "http://" ++ d) ++ "/" ++ k ++
        "?e=" ++ toString dl := by
  refine ⟨?_, ?_, ?_, ?_, ?_, ?_⟩
  · simp [deploySignBase, privateDownloadSignBase, deployOriginUrl,
      defaultDomain, String.append_assoc]
  · simp [deployIndexUrl, hd]
  · simp [deployIndexUrl]
  · have hh := hhttp
    simp only [defaultDomain, String.append_assoc] at hh
    simp [previewSignBase, privateDownloadSignBase, previewDomainWithProtocol,
      defaultDomain, hh, String.append_assoc]
  · simp [previewSignedUrl, privateDownloadUrlFull, previewSignBase,
      privateDownloadSignBase]
  · simp [previewSignBase, privateDownloadSignBase, previewDomainWithProtocol,
      hd, String.append_assoc]

/-- C2 witness: concrete instantiation of the amended domain/signing rules. -/
theorem urlSigner_domains_amended_witness :
    ("cdn.example.com" : String) ≠ "" ∧
    startsWithStr (defaultDomain ⟨"ak", "sk", "mybucket", "z0", ""⟩) "http" =
      false ∧
    deploySignBase ⟨"ak", "sk", "mybucket", "z0", "cdn.example.com"⟩ "Acme-1" 9 =
      "http://" ++ "mybucket" ++ "." ++ "z0" ++ ".qiniucs.com" ++ "/" ++
        "Acme-1" ++ "/index.html" ++ "?e=" ++ toString (9 : Nat) :=
  ⟨by decide, by decide,
    (urlSigner_domains_amended "ak" "sk" "mybucket" "z0" "cdn.example.com"
      "Acme-1" "k" 9 (by decide) (by decide)).1⟩

/-- Characters of a one-character global replacement: every output character
is the replacement or an unchanged character different from the pattern. -/
theorem mem_jsReplaceAllChar (c r x : Char) (s : String)
    (hx : x ∈ (jsReplaceAllChar c r s).data) :
    x = r ∨ (x ≠ c ∧ x ∈ s.data) := by
  simp only [jsReplaceAllChar, List.mem_map] at hx
  obtain ⟨a, ha, hax⟩ := hx
  by_cases h : a = c
  · subst h
    simp only [if_pos rfl] at hax
    exact Or.inl hax.symm
  · simp only [if_neg h] at hax
    subst hax
    exact Or.inr ⟨h, ha⟩

/-- Characters survive trailing-`=` stripping only if present before it. -/
theorem mem_stripTrailingEquals (x : Char) (s : String)
    (hx : x ∈ (stripTrailingEquals s).data) : x ∈ s.data := by
  simp only [stripTrailingEquals, List.mem_reverse] at hx
  have hsub : List.Sublist (s.data.reverse.dropWhile (· = '='))
      s.data.reverse := List.dropWhile_sublist _
  have := hsub.subset hx
  simpa [List.mem_reverse] using this

/-- The head of `dropWhile (· = '=')` is never `'='`. -/
theorem head?_dropWhileEq (l : List Char) :
    (l.dropWhile (· = '=')).head? ≠ some '=' := by
  induction l with
  | nil => simp
  | cons a l ih =>
    by_cases h : a = '='
    · simpa [List.dropWhile_cons, h] using ih
    · simp [List.dropWhile_cons, h]

/-- C3: the part_005 signer's output URL embeds the expiry as the `e` query
parameter and a `token=<ak>:<sig>` parameter whose `sig` is the HMAC-SHA1
(keyed by the secret key) of `/<key>?e=<expiry>`, base64-encoded and made
url-safe by `+`→`-`, `/`→`_` and stripping trailing `=`; consequently the
encoded signature never contains `+` or `/` and never ends in `=`. -/
theorem part005_signedUrl_scheme (ak sk bucket zone k : String) (e : Nat) :
    part005SignedUrl ⟨ak, sk, bucket, zone, ""⟩ k e =
      "http://" ++ bucket ++ "." ++ zone ++ ".qiniucs.com" ++ "/" ++ k ++
        "?e=" ++ toString e ++ "&token=" ++ ak ++ ":" ++
        part005EncodedSig sk k e ∧
    part005EncodedSig sk k e =
      stripTrailingEquals (jsReplaceAllChar '/' '_' (jsReplaceAllChar '+' '-'
        (hmacSha1Base64 sk ("/" ++ k ++ "?e=" ++ toString e)))) ∧
    (∀ c ∈ (part005EncodedSig sk k e).data, c ≠ '+' ∧ c ≠ '/') ∧
    (part005EncodedSig sk k e).data.getLast? ≠ some '=' := by
  refine ⟨?_, ?_, ?_, ?_⟩
  · simp [part005SignedUrl, defaultDomain, String.append_assoc]
  · simp [part005EncodedSig, part005PathAndQuery, String.append_assoc]
  · intro c hc
    have hc' := mem_stripTrailingEquals c _ hc
    rcases mem_jsReplaceAllChar '/' '_' c _ hc' with h | ⟨hne, hin⟩
    · subst h
      exact ⟨by decide, by decide⟩
    · rcases mem_jsReplaceAllChar '+' '-' c _ hin with h | ⟨hne2, _⟩
      · subst h
        exact ⟨by decide, hne⟩
      · exact ⟨hne2, hne⟩
  · simp only [part005EncodedSig, stripTrailingEquals, List.getLast?_reverse]
    exact head?_dropWhileEq _

theorem length_flatten_byteHex (l : List Nat) :
    ((l.map byteHex).flatten).length = 2 * l.length := by
  induction l with
  | nil => simp
  | cons b l ih =>
    simp [byteHex, ih]
    omega

theorem md5Bytes_length (m : List Nat) : (md5Bytes m).length = 16 := by
  simp [md5Bytes, bytesLE4]

theorem md5Hex_length (s : String) : (md5Hex s).data.length = 32 := by
  show ((md5Bytes (utf8 s)).map byteHex).flatten.length = 32
  rw [length_flatten_byteHex, md5Bytes_length]

theorem generateHash_length (secret name : String) :
    (generateHash secret name).data.length = 8 := by
  show ((md5Hex (name ++ "-" ++ secret)).data.take 8).length = 8
  rw [List.length_take, md5Hex_length]
  decide

theorem md5Bytes_mod (m : List Nat) : ∀ b ∈ md5Bytes m, b % 256 = b := by
  intro b hb
  simp only [md5Bytes, bytesLE4, List.mem_append, List.mem_cons,
    List.not_mem_nil, or_false, or_assoc] at hb
  rcases hb with rfl | rfl | rfl | rfl | rfl | rfl | rfl | rfl | rfl | rfl |
    rfl | rfl | rfl | rfl | rfl | rfl <;> exact Nat.mod_mod_of_dvd _ dvd_rfl

/-- C1 counterexample: the claim's "changing `s` while holding `n` fixed
changes the token" cannot hold for every pair of salts — the token is a
function into the finite space of MD5 digests, while salts range over the
infinitely many strings, so two distinct salts collide on the token for
`"Acme"`. -/
theorem naming_salt_collision :
    ∃ s₁ s₂ : String, s₁ ≠ s₂ ∧
      generateHash s₁ "Acme" = generateHash s₂ "Acme" := by
  obtain ⟨s₁, s₂, hne, heq⟩ :=
    Finite.exists_ne_map_eq_of_infinite
      (fun s : String => fun i : Fin 16 =>
        (⟨(md5Bytes (utf8 ("Acme" ++ "-" ++ s))).getD i 0 % 256,
          Nat.mod_lt _ (by norm_num)⟩ : Fin 256))
  refine ⟨s₁, s₂, hne, ?_⟩
  have hbytes : md5Bytes (utf8 ("Acme" ++ "-" ++ s₁)) =
      md5Bytes (utf8 ("Acme" ++ "-" ++ s₂)) := by
    apply List.ext_getElem (by rw [md5Bytes_length, md5Bytes_length])
    intro i h1 h2
    have h16 : i < 16 := by rwa [md5Bytes_length] at h1
    have hv := congrArg Fin.val (congrFun heq ⟨i, h16⟩)
    simp only at hv
    rw [List.getD_eq_getElem _ 0 h1, List.getD_eq_getElem _ 0 h2] at hv
    rw [md5Bytes_mod _ _ (List.getElem_mem h1),
      md5Bytes_mod _ _ (List.getElem_mem h2)] at hv
    exact hv
  show takeChars (md5Hex ("Acme" ++ "-" ++ s₁)) 8 =
    takeChars (md5Hex ("Acme" ++ "-" ++ s₂)) 8
  unfold md5Hex
  rw [hbytes]

/-- C1 (amended): the Naming Resolver is a pure function of name and salt —
resolving twice gives identical strings; the token is the 8-character
truncation of the MD5 hex digest of `` `${name}-${salt}` ``; the storage
prefix is `` `${name}-${token}` ``; and changing the salt changes the token
for typical concrete salts (here `"secret"` vs `"default-secret"` at
`"Acme"`), though not for every pair of salts, the token space being finite. -/
theorem naming_resolver_amended (secret name secret₂ : String) :
    generateHash secret name = takeChars (md5Hex (name ++ "-" ++ secret)) 8 ∧
    (generateHash secret name).data.length = 8 ∧
    dirNameOf secret name = name ++ "-" ++ generateHash secret name ∧
    (secret = secret₂ → generateHash secret name = generateHash secret₂ name) ∧
    generateHash "secret" "Acme" ≠ generateHash "default-secret" "Acme" := by
  refine ⟨rfl, generateHash_length secret name, rfl, fun h => by rw [h], ?_⟩
  decide

/-- C1 witness: determinism instantiated at a concrete salt and name. -/
theorem naming_resolver_amended_witness :
    ("s1" : String) = "s1" ∧
    generateHash "s1" "Acme" = generateHash "s1" "Acme" :=
  ⟨rfl, (naming_resolver_amended "s1" "Acme" "s1").2.2.2.1 rfl⟩

/-! Lemmas for the Directory Enumerator (C8). -/

theorem map_slash_id (l : List Char) (h : '\\' ∉ l) : l.map slashFn = l := by
  induction l with
  | nil => rfl
  | cons a l ih =>
    simp only [List.mem_cons, not_or] at h
    simp only [List.map_cons, ih h.2, List.cons.injEq, and_true]
    unfold slashFn
    exact if_neg (fun hc => h.1 hc.symm)

/-- The relative-path computation below a one-separator-deep join: dropping
the base leaves `t ++ sep ++ name` minus its leading character, and the
backslash rewrite turns it into the canonical forward-slash prefix plus the
name. -/
theorem dropSlash_eq (sepd : List Char) (hs : sepd = ['/'] ∨ sepd = ['\\'])
    (t nm : List Char) (hnm : '\\' ∉ nm) :
    ((t ++ sepd ++ nm).drop 1).map slashFn = preOf t ++ nm := by
  rcases t with _ | ⟨c, t₀⟩
  · rcases hs with rfl | rfl <;>
      simp [preOf, map_slash_id nm hnm]
  · have hcons : (c :: t₀) ++ sepd ++ nm = c :: (t₀ ++ sepd ++ nm) := by simp
    rw [hcons]
    have hpre : preOf (c :: t₀) = t₀.map slashFn ++ ['/'] := by
      rw [preOf, if_neg (by simp)]
      rfl
    rw [hpre]
    simp only [List.drop_succ_cons, List.drop_zero, List.map_append,
      map_slash_id nm hnm, List.append_assoc]
    rcases hs with rfl | rfl <;> simp [slashFn]

theorem preOf_append (sepd : List Char) (hs : sepd = ['/'] ∨ sepd = ['\\'])
    (t nm : List Char) (hnm : '\\' ∉ nm) :
    preOf (t ++ sepd ++ nm) = preOf t ++ nm ++ ['/'] := by
  have hne : t ++ sepd ++ nm ≠ [] := by
    rcases hs with rfl | rfl <;> simp
  rw [preOf, if_neg hne, dropSlash_eq sepd hs t nm hnm]

theorem contains_false_not_mem (l : List Char) (c : Char)
    (h : l.contains c = false) : c ∉ l := by
  intro hm
  have : l.contains c = true := List.elem_iff.mpr hm
  rw [this] at h
  cases h

/-- The anonymous character map of the backslash rewrite is `slashFn`. -/
theorem slashFn_lambda : (fun x => if x = '\\' then '/' else x) = slashFn := rfl

/-- The data of one enumerated file's relative path. -/
theorem relEntry_data (sep base dirPath name : String) (t : List Char)
    (ht : dirPath.data = base.data ++ t) :
    (backslashToSlash (pathRelative base (pathJoin sep dirPath name))).data =
      ((t ++ sep.data ++ name.data).drop 1).map slashFn := by
  simp only [backslashToSlash, jsReplaceAllChar, pathRelative, dropChars,
    pathJoin, String.data_append, ht]
  rw [List.append_assoc, List.append_assoc, List.drop_append 1]
  simp [List.append_assoc, slashFn_lambda]

theorem readDir_length (sep base : String) (dirPath : String)
    (entries : List FSNode) :
    (readDirRecursive sep base dirPath entries).length =
      countFilesList entries := by
  induction dirPath, entries using readDirRecursive.induct sep base with
  | case1 dirPath => simp [readDirRecursive, countFilesList]
  | case2 dirPath name rest ih =>
    simp [readDirRecursive, countFilesList, ih]
    omega
  | case3 dirPath name children rest ih1 ih2 =>
    simp [readDirRecursive, countFilesList, ih1, ih2]

theorem readDir_relPaths (sep base : String) (dirPath : String)
    (entries : List FSNode) :
    ∀ t : List Char, dirPath.data = base.data ++ t →
      (readDirRecursive sep base dirPath entries).map
          (fun e => e.relativePath.data) =
        relAux sep.data t entries := by
  induction dirPath, entries using readDirRecursive.induct sep base with
  | case1 dirPath =>
    intro t ht
    simp [readDirRecursive, relAux]
  | case2 dirPath name rest ih =>
    intro t ht
    simp only [readDirRecursive, relAux, List.map_cons, List.cons.injEq]
    exact ⟨relEntry_data sep base dirPath name t ht, ih t ht⟩
  | case3 dirPath name children rest ih1 ih2 =>
    intro t ht
    have ht' : (pathJoin sep dirPath name).data =
        base.data ++ (t ++ sep.data ++ name.data) := by
      simp [pathJoin, String.data_append, ht, List.append_assoc]
    simp only [readDirRecursive, relAux, List.map_append]
    rw [ih1 _ ht', ih2 t ht]

theorem relAux_eq_relPaths (sepd : List Char)
    (hs : sepd = ['/'] ∨ sepd = ['\\']) :
    ∀ (t : List Char) (entries : List FSNode), goodNames entries = true →
      relAux sepd t entries = relPaths (preOf t) entries := by
  intro t entries
  induction t, entries using relAux.induct sepd with
  | case1 t =>
    intro _
    simp [relAux, relPaths]
  | case2 t name rest ih =>
    intro hg
    simp only [goodNames, Bool.and_eq_true, Bool.not_eq_true'] at hg
    have hnm : '\\' ∉ name.data := contains_false_not_mem _ _ hg.1
    simp only [relAux, relPaths, List.cons.injEq]
    exact ⟨dropSlash_eq sepd hs t name.data hnm, ih hg.2⟩
  | case3 t name children rest ih1 ih2 =>
    intro hg
    simp only [goodNames, Bool.and_eq_true, Bool.not_eq_true'] at hg
    have hnm : '\\' ∉ name.data := contains_false_not_mem _ _ hg.1.1
    simp only [relAux, relPaths]
    rw [ih1 hg.1.2, ih2 hg.2, preOf_append sepd hs t name.data hnm]

/-- C8: on either host separator, the Directory Enumerator yields exactly
one entry per file at any nesting depth (none for directories, zero for an
empty directory), and every entry's storage-relative path is the canonical
forward-slash join of the names along the way, independent of the host
separator. -/
theorem enumerator_complete (sep base : String) (entries : List FSNode)
    (hsep : sep = "/" ∨ sep = "\\") (hgood : goodNames entries = true) :
    (readDirRecursive sep base base entries).length = countFilesList entries ∧
    readDirRecursive sep base base ([] : List FSNode) = [] ∧
    (readDirRecursive sep base base entries).map
        (fun e => e.relativePath.data) = relPaths [] entries := by
  refine ⟨readDir_length sep base base entries, by simp [readDirRecursive], ?_⟩
  have hs : sep.data = ['/'] ∨ sep.data = ['\\'] := by
    rcases hsep with rfl | rfl
    · exact Or.inl rfl
    · exact Or.inr rfl
  rw [readDir_relPaths sep base base entries [] (by simp),
    relAux_eq_relPaths sep.data hs [] entries hgood]
  rfl

/-- C8 witness: a three-file tree with a nested and an empty directory,
walked with the Windows separator, yields three entries whose relative paths
are the canonical forward-slash ones. -/
theorem enumerator_complete_witness :
    (("\\" : String) = "/" ∨ ("\\" : String) = "\\") ∧
    goodNames [FSNode.file "index.html",
      FSNode.dir "css" [FSNode.file "style.css"],
      FSNode.dir "js" [FSNode.file "main.js"],
      FSNode.dir "empty" []] = true ∧
    ((readDirRecursive "\\" "C:\\site" "C:\\site"
        [FSNode.file "index.html",
         FSNode.dir "css" [FSNode.file "style.css"],
         FSNode.dir "js" [FSNode.file "main.js"],
         FSNode.dir "empty" []]).length =
      countFilesList [FSNode.file "index.html",
        FSNode.dir "css" [FSNode.file "style.css"],
        FSNode.dir "js" [FSNode.file "main.js"],
        FSNode.dir "empty" []] ∧
    readDirRecursive "\\" "C:\\site" "C:\\site" ([] : List FSNode) = [] ∧
    (readDirRecursive "\\" "C:\\site" "C:\\site"
        [FSNode.file "index.html",
         FSNode.dir "css" [FSNode.file "style.css"],
         FSNode.dir "js" [FSNode.file "main.js"],
         FSNode.dir "empty" []]).map (fun e => e.relativePath.data) =
      relPaths [] [FSNode.file "index.html",
        FSNode.dir "css" [FSNode.file "style.css"],
        FSNode.dir "js" [FSNode.file "main.js"],
        FSNode.dir "empty" []]) :=
  ⟨Or.inr rfl, by simp [goodNames],
    enumerator_complete "\\" "C:\\site" _ (Or.inr rfl) (by simp [goodNames])⟩

end CWG
